import Mathlib

/-!
# GD icon pack installer: install / backup / restore pipeline

A shallow embedding of `src/main.cpp` (class `IconInstallerWindow`).

The Qt file-system calls of the source (`QFile::exists`, `QFile::remove`,
`QFile::copy`, `QDir::exists`, `QDir::mkpath`, `QDir::entryList`,
`QDir::removeRecursively`) act on an explicit file-system value `FS`; the
external extraction process (`unzip` / `Expand-Archive`) is an input value
`Archive` describing what one run of the tool does.

Modelling assumptions, all about the environment and not about the program:

* three disjoint directories are tracked: the assets directory
  `gdPath + "/resources/icons"`, the backup directory `getBackupPath()` and
  the scratch directories below `QDir::tempPath()`;
* a directory holds regular, non-hidden files only, keyed by their exact
  name, so the `QDir::Files` filter of `entryList` passes every entry;
* an extraction run that has ended leaves exactly the archive's tree in its
  destination; a run that is still going when the wait ends keeps writing
  until `~QProcess` kills it at the return of the function, and what it then
  leaves in the destination is an input of the run (`Archive.leftBehind`);
* the only file operations that may fail for lack of permission are the
  removal and the creation of the names listed in `FS.locked` inside the
  assets directory; operations on the backup directory, and on a scratch
  directory no process is writing to, succeed whenever Qt's documented
  preconditions hold;
* `QFile::copy` never overwrites: it fails when the destination exists.
-/

namespace GDIconMaker

/-! ## Directories -/

/-- A directory of regular files: each file name with the file's content.
The first pair carrying a name is the file of that name. -/
abbrev Dir := List (String × String)

/-- Content of the file called `name`, `none` when there is no such file. -/
def Dir.read : Dir → String → Option String
  | [], _ => none
  | (k, v) :: rest, name => if k = name then some v else Dir.read rest name

/-- The directory without the file called `name`. -/
def Dir.erase (d : Dir) (name : String) : Dir :=
  d.filter (fun e => decide (e.1 ≠ name))

/-- The file names of a directory, each listed once. -/
def Dir.names (d : Dir) : List String :=
  (d.map Prod.fst).dedup

/-- Wildcard `"*" ++ ext` of a `QDir` name filter. Name filters are matched
case-insensitively unless `QDir::CaseSensitive` is passed, which the source
never does. -/
def wildcardSuffix (ext : String) (name : String) : Bool :=
  ext.toList.isSuffixOf (name.toList.map Char.toLower)

/-- The name filter `QStringList() << "*.png" << "*.plist"` used by both
`entryList` calls of the source. -/
def iconNameFilter (name : String) : Bool :=
  wildcardSuffix ".png" name || wildcardSuffix ".plist" name

/-- Models `QDir(dir).entryList(QStringList() << "*.png" << "*.plist", QDir::Files)`;
the listing of a directory that does not exist is empty. The order is the
order of the directory value. -/
def entryList : Option Dir → List String
  | none => []
  | some d => d.names.filter iconNameFilter

/-! ## File system -/

/-- What lies at the root of an extracted pack: whether `pack.json` and
`pack.png` exist, and the `icons` directory when it exists. -/
structure Tree where
  packJson : Bool
  packPng : Bool
  icons : Option Dir
  deriving DecidableEq, Repr

/-- A freshly created, empty directory. -/
def Tree.empty : Tree := ⟨false, false, none⟩

/-- The two families of scratch directories of the source, below
`QDir::tempPath()`: `"/gdiconmaker_validate_" + msecs` (validateZip) and
`"/gdiconmaker_temp_" + msecs` (performManualInstall), where `msecs` is
`QDateTime::currentMSecsSinceEpoch()`. -/
inductive ScratchDir where
  | validate (msecs : Nat)
  | temp (msecs : Nat)
  deriving DecidableEq, Repr

/-- The part of the file system the installer reads and writes. -/
structure FS where
  /-- The directory `gdPath + "/resources/icons"`, `none` when the directory does not exist -/
  assets : Option Dir
  /-- names in the assets directory that can be neither removed nor created -/
  locked : List String
  /-- the directory `getBackupPath()`, `none` when it does not exist -/
  backup : Option Dir
  /-- the scratch directories that exist, each with its content -/
  scratch : List (ScratchDir × Tree)
  deriving DecidableEq, Repr

/-- The file paths the installer builds. -/
inductive Path where
  /-- The path `iconsPath + "/" + file` -/
  | asset (file : String)
  /-- The path `backupPath + "/" + file` -/
  | backup (file : String)
  /-- The path `tempDir + "/icons" + "/" + file` -/
  | scratchIcon (tempDir : ScratchDir) (file : String)
  deriving DecidableEq, Repr

/-- Last component of a path. -/
def Path.name : Path → String
  | .asset f => f
  | .backup f => f
  | .scratchIcon _ f => f

/-- Content of a scratch directory, `none` when it does not exist. -/
def FS.scratchTree (fs : FS) (tempDir : ScratchDir) : Option Tree :=
  (fs.scratch.find? (fun e => decide (e.1 = tempDir))).map Prod.snd

/-- The directory a path lies in, `none` when that directory does not exist. -/
def FS.dirOf (fs : FS) : Path → Option Dir
  | .asset _ => fs.assets
  | .backup _ => fs.backup
  | .scratchIcon t _ => (fs.scratchTree t).bind Tree.icons

/-- Content of the file at a path. -/
def FS.readFile (fs : FS) (p : Path) : Option String :=
  (fs.dirOf p).bind (fun d => d.read p.name)

/-- Models `QFile::exists(path)`. -/
def FS.fileExists (fs : FS) (p : Path) : Bool :=
  (fs.readFile p).isSome

/-- Whether the process is refused removal and creation of the path. -/
def FS.denied (fs : FS) : Path → Bool
  | .asset f => decide (f ∈ fs.locked)
  | _ => false

/-- The file system with the directory of `p` replaced by `d`. -/
def FS.setDir (fs : FS) (p : Path) (d : Dir) : FS :=
  match p with
  | .asset _ => { fs with assets := some d }
  | .backup _ => { fs with backup := some d }
  | .scratchIcon t _ =>
    let relink : ScratchDir × Tree → ScratchDir × Tree :=
      fun e => if e.1 = t then (e.1, ⟨e.2.packJson, e.2.packPng, some d⟩) else e
    { fs with scratch := fs.scratch.map relink }

/-- Models `QFile::remove(path)`: the new file system and whether the file was
removed. -/
def FS.remove (fs : FS) (p : Path) : FS × Bool :=
  match fs.dirOf p with
  | none => (fs, false)
  | some d =>
    if (d.read p.name).isSome && !fs.denied p then
      (fs.setDir p (d.erase p.name), true)
    else (fs, false)

/-- Models `QFile::copy(src, dst)`: fails when the source is missing, when the
destination's directory is missing, when the destination already exists
(Qt does not overwrite) or when the destination may not be created. -/
def FS.copy (fs : FS) (src dst : Path) : FS × Bool :=
  match fs.readFile src, fs.dirOf dst with
  | some c, some d =>
    if (d.read dst.name).isSome || fs.denied dst then (fs, false)
    else (fs.setDir dst ((dst.name, c) :: d), true)
  | _, _ => (fs, false)

/-- Models `QDir(backupPath).exists()`. -/
def FS.backupExists (fs : FS) : Bool := fs.backup.isSome

/-- Models `QDir().mkpath(backupPath)`. -/
def FS.mkpathBackup (fs : FS) : FS :=
  match fs.backup with
  | none => { fs with backup := some [] }
  | some _ => fs

/-- Models `QDir().mkpath(tempDir)`. -/
def FS.mkpathScratch (fs : FS) (tempDir : ScratchDir) : FS :=
  match fs.scratchTree tempDir with
  | none => { fs with scratch := (tempDir, Tree.empty) :: fs.scratch }
  | some _ => fs

/-- Models `QDir(tempDir).removeRecursively()` on a directory no process is
writing to. -/
def FS.removeRecursively (fs : FS) (tempDir : ScratchDir) : FS :=
  { fs with scratch := fs.scratch.filter (fun e => decide (e.1 ≠ tempDir)) }

/-! ## The extraction process -/

/-- One run of the extraction tool on an archive, as `QProcess` observes it:
how long the run takes (`none`: the process never finishes or never starts),
its exit code, what a run that has ended leaves in the destination directory
(`none`: it writes nothing, not even the directory), and what a run that is
still going when the wait ends leaves there by the time `~QProcess` kills it
(`none`: nothing is left). -/
structure Archive where
  duration : Option Nat
  exitCode : Int
  contents : Option Tree
  leftBehind : Option Tree
  deriving DecidableEq, Repr

/-- Models `proc.waitForFinished(msecs)`. -/
def Archive.waitForFinished (a : Archive) (msecs : Nat) : Bool :=
  match a.duration with
  | none => false
  | some d => decide (d ≤ msecs)

/-- Effect of a run of the extraction tool that has ended, with destination
`tempDir`: the destination holds what the tool extracted. -/
def FS.extract (fs : FS) (a : Archive) (tempDir : ScratchDir) : FS :=
  match a.contents with
  | none => fs
  | some t =>
    { fs with scratch := (tempDir, t) :: fs.scratch.filter (fun e => decide (e.1 ≠ tempDir)) }

/-- Models `QDir(tempDir).removeRecursively()` on the timeout exits, where the
extraction process is still running: `proc` is destroyed, and the process
killed, only when the function returns, so the removal races the writes of
the process. The result is the file system at the return: the destination
holds what the run left behind, or is gone when it left nothing. -/
def FS.removeWhileExtracting (fs : FS) (a : Archive) (tempDir : ScratchDir) : FS :=
  match a.leftBehind with
  | none => fs.removeRecursively tempDir
  | some t => { fs with scratch := (tempDir, t) :: (fs.removeRecursively tempDir).scratch }

/-! ## Log lines -/

/-- The calls of `log(...)` in the modelled functions, one constructor per
message text. -/
inductive LogLine where
  /-- Text "❌ ZIP extraction timeout" -/
  | zipExtractionTimeout
  /-- Text "❌ Failed to extract ZIP for validation" -/
  | zipExtractionFailed
  /-- Text "❌ Invalid pack structure (missing pack.json/pack.png/icons)" -/
  | invalidPackStructure
  /-- Text "✓ ZIP validated successfully" -/
  | zipValidated
  /-- Text "Extracting pack..." -/
  | extractingPack
  /-- Text "❌ Extraction timeout" -/
  | extractionTimeout
  /-- Text "❌ Failed to extract ZIP" -/
  | extractionFailed
  /-- Text "❌ No icon files found in pack" -/
  | noIconFiles
  /-- Text "Creating backup of original icons..." -/
  | creatingBackup
  /-- Text "✓ Backup created at: " + backupPath -/
  | backupCreated
  /-- Text "Backup already exists, skipping..." -/
  | backupAlreadyExists
  /-- Text "Installing icon files..." -/
  | installingIconFiles
  /-- Text "✓ Installed %1 icon files" -/
  | installedFiles (installed : Nat)
  /-- Text "Restoring backup..." -/
  | restoringBackup
  /-- Text "✓ Restored %1 files from backup" -/
  | restoredFiles (restored : Nat)
  deriving DecidableEq, Repr

/-! ## validateZip -/

/-- Result of `validateZip`: the file system afterwards, the lines logged and
the returned boolean. -/
structure ValidateOutcome where
  fs : FS
  log : List LogLine
  result : Bool
  deriving DecidableEq, Repr

/-- Models `IconInstallerWindow::validateZip` (main.cpp 61-99). `now` is
`QDateTime::currentMSecsSinceEpoch()`. -/
def validateZip (fs : FS) (zip : Archive) (now : Nat) : ValidateOutcome :=
  let tempDir := ScratchDir.validate now
  if !zip.waitForFinished 10000 then
    ⟨fs.removeWhileExtracting zip tempDir, [.zipExtractionTimeout], false⟩
  else
    let fs := fs.extract zip tempDir
    if zip.exitCode ≠ 0 then
      ⟨fs.removeRecursively tempDir, [.zipExtractionFailed], false⟩
    else
      let hasPack := ((fs.scratchTree tempDir).map Tree.packJson).getD false
      let hasPng := ((fs.scratchTree tempDir).map Tree.packPng).getD false
      let hasIcons := ((fs.scratchTree tempDir).bind Tree.icons).isSome
      let fs := fs.removeRecursively tempDir
      if !hasPack || !hasPng || !hasIcons then
        ⟨fs, [.invalidPackStructure], false⟩
      else
        ⟨fs, [.zipValidated], true⟩

/-! ## performManualInstall -/

/-- The exit taken by `performManualInstall`, named after the message box
shown there: the three `QMessageBox::critical` boxes ("ZIP extraction timed
out", "Failed to extract ZIP file", "No icon files found in pack") and the
final `QMessageBox::information` "Success!" box with the installed count. -/
inductive InstallExit where
  | extractionTimedOut
  | extractFailed
  | noIconFilesFound
  | success (installed : Nat)
  deriving DecidableEq, Repr

/-- Result of `performManualInstall`. -/
structure InstallOutcome where
  fs : FS
  log : List LogLine
  exit : InstallExit
  deriving DecidableEq, Repr

/-- Body of the backup loop (main.cpp 252-258). -/
def backupFile (fs : FS) (file : String) : FS :=
  if fs.fileExists (.asset file) then (fs.copy (.asset file) (.backup file)).1
  else fs

/-- Body of the copy loop (main.cpp 267-278) on the pair of the file system
and the counter `installed`. -/
def installFile (tempDir : ScratchDir) (st : FS × Nat) (file : String) : FS × Nat :=
  let fs := if st.1.fileExists (.asset file) then (st.1.remove (.asset file)).1 else st.1
  let r := fs.copy (.scratchIcon tempDir file) (.asset file)
  (r.1, if r.2 then st.2 + 1 else st.2)

/-- The backup step (main.cpp 247-262). -/
def backupStep (fs : FS) (iconFiles : List String) : FS × List LogLine :=
  if !fs.backupExists then
    (iconFiles.foldl backupFile fs.mkpathBackup, [.creatingBackup, .backupCreated])
  else
    (fs, [.backupAlreadyExists])

/-- Models `IconInstallerWindow::performManualInstall` (main.cpp 201-289) for the
selected archive `zip`. `now` is `QDateTime::currentMSecsSinceEpoch()`. -/
def performManualInstall (fs : FS) (zip : Archive) (now : Nat) : InstallOutcome :=
  let tempDir := ScratchDir.temp now
  let fs := fs.mkpathScratch tempDir
  if !zip.waitForFinished 30000 then
    ⟨fs.removeWhileExtracting zip tempDir, [.extractingPack, .extractionTimeout],
      .extractionTimedOut⟩
  else
    let fs := fs.extract zip tempDir
    if zip.exitCode ≠ 0 then
      ⟨fs.removeRecursively tempDir, [.extractingPack, .extractionFailed], .extractFailed⟩
    else
      let iconFiles := entryList ((fs.scratchTree tempDir).bind Tree.icons)
      if iconFiles.isEmpty then
        ⟨fs.removeRecursively tempDir, [.extractingPack, .noIconFiles], .noIconFilesFound⟩
      else
        let b := backupStep fs iconFiles
        let r := iconFiles.foldl (installFile tempDir) (b.1, 0)
        ⟨r.1.removeRecursively tempDir,
          [.extractingPack] ++ b.2 ++ [.installingIconFiles, .installedFiles r.2],
          .success r.2⟩

/-! ## restoreBackup -/

/-- The exit taken by `restoreBackup`: the warning box "No Backup", the
warning box "GD Not Detected", a reply other than Yes to the question box, or
the information box "Restored" with the restored count. -/
inductive RestoreExit where
  | noBackup
  | gdNotDetected
  | declined
  | restored (count : Nat)
  deriving DecidableEq, Repr

/-- Result of `restoreBackup`. -/
structure RestoreOutcome where
  fs : FS
  log : List LogLine
  exit : RestoreExit
  deriving DecidableEq, Repr

/-- Body of the restore loop (main.cpp 315-326). -/
def restoreFile (st : FS × Nat) (file : String) : FS × Nat :=
  let fs := if st.1.fileExists (.asset file) then (st.1.remove (.asset file)).1 else st.1
  let r := fs.copy (.backup file) (.asset file)
  (r.1, if r.2 then st.2 + 1 else st.2)

/-- Models `IconInstallerWindow::restoreBackup` (main.cpp 291-331). `gdDetected` is
the member of that name, `replyYes` whether the question box was answered
with `QMessageBox::Yes`. -/
def restoreBackup (fs : FS) (gdDetected : Bool) (replyYes : Bool) : RestoreOutcome :=
  if !fs.backupExists then ⟨fs, [], .noBackup⟩
  else if !gdDetected then ⟨fs, [], .gdNotDetected⟩
  else if !replyYes then ⟨fs, [], .declined⟩
  else
    let backupFiles := entryList fs.backup
    let r := backupFiles.foldl restoreFile (fs, 0)
    ⟨r.1, [.restoringBackup, .restoredFiles r.2], .restored r.2⟩

/-! ## The window: members, widgets and event handlers -/

/-- The members and widget flags of `IconInstallerWindow` that the handlers
read and write. `fs` holds the tracked directories; its assets directory is
the one below the current `gdPath`. -/
structure Window where
  zipPath : String
  gdPath : String
  gdDetected : Bool
  /-- Models `installBtn->isEnabled()` -/
  installBtn : Bool
  /-- Models `methodBox->isEnabled()` -/
  methodBox : Bool
  /-- Models `restoreBtn->isEnabled()` -/
  restoreBtn : Bool
  /-- Models `detectGDBtn->isEnabled()` -/
  detectGDBtn : Bool
  /-- Models `geodeRadio->isEnabled()` -/
  geodeRadioEnabled : Bool
  /-- Models `geodeRadio->isChecked()`; both radio buttons are in one `QButtonGroup`,
  so `manualRadio` is checked exactly when this one is not -/
  geodeRadioChecked : Bool
  /-- whether `processTimer` is running -/
  timerActive : Bool
  /-- Models `settings->value("gdPath")` -/
  savedGdPath : String
  fs : FS
  deriving DecidableEq, Repr

/-- The window as the constructor leaves it (main.cpp 366-507): nothing
selected, nothing detected, install and restore disabled, the manual method
checked. -/
def Window.init (savedGdPath : String) (fs : FS) : Window :=
  ⟨"", "", false, false, false, false, true, false, false, false, savedGdPath, fs⟩

/-- Models `IconInstallerWindow::updateUI` (main.cpp 333-338). -/
def Window.updateUI (w : Window) : Window :=
  let canInstall := !w.zipPath.isEmpty && w.gdDetected
  { w with installBtn := canInstall, methodBox := canInstall, restoreBtn := w.gdDetected }

/-- Models `IconInstallerWindow::checkInstallMethods` (main.cpp 161-173);
`geodeAvail` is `QFile::exists(geodePath)`. -/
def Window.checkInstallMethods (w : Window) (geodeAvail : Bool) : Window :=
  { w with geodeRadioEnabled := geodeAvail, geodeRadioChecked := geodeAvail }

/-- Models `IconInstallerWindow::determineGDPath` (main.cpp 117-159). `lookup` is the
directory the platform query yields for the running executable, `none` when
it yields nothing, in which case `gdPath` keeps its value. -/
def Window.determineGDPath (w : Window) (lookup : Option String) (geodeAvail : Bool) :
    Window :=
  let w := match lookup with
    | some dir => { w with gdPath := dir }
    | none => w
  if w.gdPath.isEmpty then w
  else
    ({ w with savedGdPath := w.gdPath, gdDetected := true, detectGDBtn := false
      }.checkInstallMethods geodeAvail).updateUI

/-- Models `output.contains("GeometryDash.exe")`. -/
def containsProcessName (output : String) : Bool :=
  decide ("GeometryDash.exe".toList <:+: output.toList)

/-- Models `IconInstallerWindow::checkForGD` (main.cpp 101-115); `output` is the
standard output of the process-listing command. -/
def Window.checkForGD (w : Window) (output : String) (lookup : Option String)
    (geodeAvail : Bool) : Window :=
  if containsProcessName output || !output.isEmpty then
    Window.determineGDPath { w with timerActive := false } lookup geodeAvail
  else w

/-- The `clicked` handler of `detectGDBtn` (main.cpp 418-440); `savedExists`
is `QDir(savedPath).exists()`. -/
def Window.detectClicked (w : Window) (savedExists : Bool) (geodeAvail : Bool) : Window :=
  if !w.savedGdPath.isEmpty && savedExists then
    ({ w with gdPath := w.savedGdPath, gdDetected := true, detectGDBtn := false
      }.checkInstallMethods geodeAvail).updateUI
  else
    { w with detectGDBtn := false, timerActive := true }

/-- The common tail of the two pack-selection handlers: `zipPath = file;`
followed by `if (validateZip(zipPath)) { ...; updateUI(); }`. -/
def Window.setZip (w : Window) (file : String) (zip : Archive) (now : Nat) : Window :=
  let v := validateZip w.fs zip now
  let w := { w with zipPath := file, fs := v.fs }
  if v.result then w.updateUI else w

/-- The `clicked` handler of `selectZipBtn` (main.cpp 396-406); `file` is what
the file dialog returns, empty when it is cancelled. -/
def Window.selectZipClicked (w : Window) (file : String) (zip : Archive) (now : Nat) :
    Window :=
  if !file.isEmpty then w.setZip file zip now else w

/-- Models `IconInstallerWindow::dropEvent` (main.cpp 350-363); `urls` are the local
files of the dropped URLs. -/
def Window.dropEvent (w : Window) (urls : List String) (zip : Archive) (now : Nat) :
    Window :=
  match urls with
  | [] => w
  | filePath :: _ =>
    if ".zip".toList.isSuffixOf filePath.toList then w.setZip filePath zip now else w

/-- The `clicked` handler of `installBtn` (main.cpp 475-481).
`performGeodeInstall` writes only below `gdPath + "/geode/config"`, outside
the tracked directories, so it leaves `fs` as it is. -/
def Window.installClicked (w : Window) (zip : Archive) (now : Nat) : Window :=
  if w.geodeRadioChecked then w
  else { w with fs := (performManualInstall w.fs zip now).fs }

/-- The `clicked` handler of `restoreBtn`, `restoreBackup`. -/
def Window.restoreClicked (w : Window) (replyYes : Bool) : Window :=
  { w with fs := (restoreBackup w.fs w.gdDetected replyYes).fs }

/-- What can happen to the window. Each event carries what the environment
contributes to its handler: for a pack selection the chosen file, the run of
the extraction tool on it and the clock. -/
inductive Event where
  | selectZip (file : String) (zip : Archive) (now : Nat)
  | dropZip (urls : List String) (zip : Archive) (now : Nat)
  | detect (savedExists geodeAvail : Bool)
  | timerTick (output : String) (lookup : Option String) (geodeAvail : Bool)
  | install (zip : Archive) (now : Nat)
  | restore (replyYes : Bool)
  deriving DecidableEq, Repr

/-- One event. A click on a disabled button and a tick of a stopped timer do
not reach their handlers. -/
def Window.step (w : Window) : Event → Window
  | .selectZip file zip now => w.selectZipClicked file zip now
  | .dropZip urls zip now => w.dropEvent urls zip now
  | .detect savedExists geodeAvail =>
    if w.detectGDBtn then w.detectClicked savedExists geodeAvail else w
  | .timerTick output lookup geodeAvail =>
    if w.timerActive then w.checkForGD output lookup geodeAvail else w
  | .install zip now => if w.installBtn then w.installClicked zip now else w
  | .restore replyYes => if w.restoreBtn then w.restoreClicked replyYes else w

/-- A window together with the verdict `validateZip` gave for the file now
held in `zipPath` (`false` while nothing was selected). The verdict is not a
member of the class; it is recorded to state properties of runs. -/
structure Session where
  win : Window
  zipPassed : Bool
  deriving DecidableEq, Repr

/-- The verdict for `zipPath` after an event. -/
def Session.verdictAfter (s : Session) : Event → Bool
  | .selectZip file zip now =>
    if !file.isEmpty then (validateZip s.win.fs zip now).result else s.zipPassed
  | .dropZip urls zip now =>
    match urls with
    | [] => s.zipPassed
    | filePath :: _ =>
      if ".zip".toList.isSuffixOf filePath.toList then (validateZip s.win.fs zip now).result
      else s.zipPassed
  | _ => s.zipPassed

/-- One event on a session. -/
def Session.step (s : Session) (e : Event) : Session :=
  ⟨s.win.step e, s.verdictAfter e⟩

/-- A run of events from the freshly constructed window. -/
def Session.run (savedGdPath : String) (fs : FS) (events : List Event) : Session :=
  events.foldl Session.step ⟨Window.init savedGdPath fs, false⟩

/-! ## Concrete data -/

/-- A pack with two icon files that extracts in 120 ms. -/
def demoPack : Archive :=
  ⟨some 120, 0, some ⟨true, true, some [("a.png", "new-a"), ("b.plist", "new-b")]⟩, none⟩

/-- A target holding three original files, without backup. -/
def demoTarget : FS :=
  ⟨some [("a.png", "orig-a"), ("b.plist", "orig-b"), ("c.png", "orig-c")], [], none, []⟩

/-- The same target with `b.plist` locked. -/
def lockedTarget : FS :=
  ⟨some [("a.png", "orig-a"), ("b.plist", "orig-b"), ("c.png", "orig-c")], ["b.plist"],
    none, []⟩

/-- The same target with a backup directory left by an earlier install of
another pack: it holds an older `a.png` and a text file. -/
def staleBackupTarget : FS :=
  ⟨some [("a.png", "orig-a"), ("b.plist", "orig-b"), ("c.png", "orig-c")], [],
    some [("a.png", "older-a"), ("notes.txt", "n")], []⟩

/-- A file system in which the assets directory does not exist. -/
def noAssetsTarget : FS := ⟨none, [], none, []⟩

/-- An archive without `pack.json`. -/
def brokenPack : Archive :=
  ⟨some 50, 0, some ⟨false, true, some [("a.png", "bad-a")]⟩, none⟩

/-- The two-icon pack on a machine where the extraction takes 45 s, longer
than both time limits: when the wait ends the tool is still writing, and by
the time it is killed the destination holds `pack.png` and one icon again. -/
def slowPack : Archive :=
  ⟨some 45000, 0, some ⟨true, true, some [("a.png", "new-a"), ("b.plist", "new-b")]⟩,
    some ⟨false, true, some [("a.png", "new-a")]⟩⟩

/-! ## Pure counterparts of the loops, used in the proofs -/

/-- Remove-then-copy of one file into the assets directory, the common shape
of the bodies of the copy loop and of the restore loop. -/
def overwriteAsset (src : Path) (st : FS × Nat) (file : String) : FS × Nat :=
  let fs := if st.1.fileExists (.asset file) then (st.1.remove (.asset file)).1 else st.1
  let r := fs.copy src (.asset file)
  (r.1, if r.2 then st.2 + 1 else st.2)

/-- The assets directory after one remove-then-copy, as a pure function of
the directory, the lock list and the source content. -/
def overwriteDir (locked : List String) (src : Option String) (st : Dir × Nat)
    (file : String) : Dir × Nat :=
  if file ∈ locked then st
  else match src with
    | some c => ((file, c) :: st.1.erase file, st.2 + 1)
    | none => (st.1.erase file, st.2)

/-- Whether a path lies in the assets directory. -/
def Path.isAsset : Path → Bool
  | .asset _ => true
  | _ => false

/-- Body of the backup loop as a function of the backup directory. -/
def backupDirStep (A : Dir) (B : Dir) (file : String) : Dir :=
  match A.read file with
  | some c => if (B.read file).isSome then B else (file, c) :: B
  | none => B

/-- The file system `performManualInstall` enumerates the pack from: after
`mkpath(tempDir)` and the extraction into `tempDir`. -/
def staged (fs : FS) (zip : Archive) (now : Nat) : FS :=
  (fs.mkpathScratch (.temp now)).extract zip (.temp now)

/-- The `icons` directory of the extracted pack, as `performManualInstall`
finds it. -/
def extractedIcons (fs : FS) (zip : Archive) (now : Nat) : Option Dir :=
  ((staged fs zip now).scratchTree (.temp now)).bind Tree.icons

/-- The list `iconFiles` of `performManualInstall`. -/
def enumeratedIconFiles (fs : FS) (zip : Archive) (now : Nat) : List String :=
  entryList (extractedIcons fs zip now)

/-- Content of the pack's icon file `f` as the copy loop reads it. -/
def packContent (fs : FS) (zip : Archive) (now : Nat) (f : String) : Option String :=
  (extractedIcons fs zip now).bind (fun d => d.read f)

/-- The assets directory and the counter after the copy loop, as a pure
function. -/
def copyLoopResult (fs : FS) (zip : Archive) (now : Nat) (A : Dir) : Dir × Nat :=
  (enumeratedIconFiles fs zip now).foldl
    (fun st f => overwriteDir fs.locked (packContent fs zip now f) st f) (A, 0)

/-- The backup directory after the backup step over the list `l`. -/
def backupAfter (fs : FS) (l : List String) : Option Dir :=
  match fs.backup, fs.assets with
  | some B, _ => some B
  | none, some A => some (l.foldl (backupDirStep A) [])
  | none, none => some []

/-- The assets directory and the counter after the restore loop, as a pure
function. -/
def restoreLoopResult (locked : List String) (A B : Dir) : Dir × Nat :=
  (entryList (some B)).foldl (fun st f => overwriteDir locked (B.read f) st f) (A, 0)

/-- Whether a run of `performManualInstall` gets past extraction and
enumeration to the backup step and the copy loop. -/
def reachesCopyLoop (fs : FS) (zip : Archive) (now : Nat) : Bool :=
  zip.waitForFinished 30000 && decide (zip.exitCode = 0) &&
    !(enumeratedIconFiles fs zip now).isEmpty

/-- The root of the extracted pack as `validateZip` inspects it. -/
def validatedRoot (fs : FS) (zip : Archive) (now : Nat) : Option Tree :=
  (fs.extract zip (.validate now)).scratchTree (.validate now)

/-- Whether `pack.json`, `pack.png` and the `icons` directory are all there. -/
def hasPackLayout : Option Tree → Bool
  | none => false
  | some t => t.packJson && t.packPng && t.icons.isSome

/-- Whether the copy loop's body, run on `file` alone right after extraction,
copies the file: the remove-then-copy of this one file succeeds. -/
def copiesAlone (fs : FS) (zip : Archive) (now : Nat) (file : String) : Bool :=
  (installFile (.temp now) (staged fs zip now, 0) file).2 == 1

/-- The condition of the `if` in `checkForGD` (main.cpp 111): whether the
output of the process-listing command is taken as the process being found. -/
def processFound (output : String) : Bool :=
  containsProcessName output || !output.isEmpty

/-- A freshly constructed window, without saved path, after a click on the
detect button: the polling timer runs. -/
def pollingWindow : Window :=
  (Window.init "" demoTarget).detectClicked false false

/-! ## Lemmas -/

theorem Dir.read_cons (k v : String) (d : Dir) (m : String) :
    Dir.read ((k, v) :: d) m = if k = m then some v else Dir.read d m := rfl

theorem Dir.read_erase (d : Dir) (n m : String) :
    (d.erase n).read m = if m = n then none else d.read m := by
  induction d with
  | nil => simp [Dir.erase, Dir.read]
  | cons e rest ih =>
    obtain ⟨k, v⟩ := e
    unfold Dir.erase at ih ⊢
    by_cases hk : k = n
    · subst hk
      by_cases hm : m = k
      · subst hm; simpa [List.filter, Dir.read] using ih
      · have : ¬ k = m := fun h => hm h.symm
        simpa [List.filter, Dir.read, this, hm] using ih
    · by_cases hm : m = n
      · subst hm
        simp [List.filter, Dir.read, hk] at ih ⊢
        exact ih
      · simp only [List.filter, hk, ne_eq, not_false_eq_true, decide_True, Dir.read, hm, if_false] at ih ⊢
        rw [ih]

theorem Dir.mem_names_iff (d : Dir) (f : String) :
    f ∈ d.names ↔ (d.read f).isSome = true := by
  unfold Dir.names
  rw [List.mem_dedup]
  induction d with
  | nil => simp [Dir.read]
  | cons e rest ih =>
    obtain ⟨k, v⟩ := e
    by_cases hk : k = f
    · simp [Dir.read, hk]
    · have : ¬ f = k := fun h => hk h.symm
      simp [Dir.read, hk, this, ih]

theorem installFile_eq (t : ScratchDir) (st : FS × Nat) (file : String) :
    installFile t st file = overwriteAsset (.scratchIcon t file) st file := rfl

theorem restoreFile_eq (st : FS × Nat) (file : String) :
    restoreFile st file = overwriteAsset (.backup file) st file := rfl

theorem Dir.erase_of_read_none (d : Dir) (n : String) (h : d.read n = none) :
    d.erase n = d := by
  induction d with
  | nil => rfl
  | cons e rest ih =>
    obtain ⟨k, v⟩ := e
    by_cases hk : k = n
    · simp [Dir.read, hk] at h
    · simp only [Dir.read, hk, if_false] at h
      have := ih h
      unfold Dir.erase at this ⊢
      rw [List.filter_cons_of_pos (by simpa using hk), this]

theorem readFile_setAssets (fs : FS) (d : Dir) (src : Path) (h : src.isAsset = false) :
    FS.readFile { fs with assets := some d } src = fs.readFile src := by
  cases src <;> simp_all [Path.isAsset, FS.readFile, FS.dirOf, FS.scratchTree]

theorem overwriteAsset_none (src : Path) (fs : FS) (n : Nat) (file : String)
    (h : fs.assets = none) : overwriteAsset src (fs, n) file = (fs, n) := by
  simp [overwriteAsset, FS.fileExists, FS.readFile, FS.dirOf, FS.copy, h]

theorem overwriteAsset_some (src : Path) (fs : FS) (n : Nat) (file : String) (A : Dir)
    (hs : src.isAsset = false) (h : fs.assets = some A) :
    overwriteAsset src (fs, n) file =
      ({ fs with assets := some (overwriteDir fs.locked (fs.readFile src) (A, n) file).1 },
       (overwriteDir fs.locked (fs.readFile src) (A, n) file).2) := by
  obtain ⟨assets, locked, backup, scratch⟩ := fs
  simp only at h
  subst h
  have hsrc : ∀ d, FS.readFile ⟨some d, locked, backup, scratch⟩ src
      = FS.readFile ⟨some A, locked, backup, scratch⟩ src := by
    intro d
    cases src <;> simp_all [Path.isAsset, FS.readFile, FS.dirOf, FS.scratchTree]
  by_cases hl : file ∈ locked <;>
  cases hr : A.read file <;>
  cases hc : FS.readFile ⟨some A, locked, backup, scratch⟩ src <;>
    simp [overwriteAsset, overwriteDir, FS.fileExists, FS.dirOf, FS.copy,
      FS.remove, FS.denied, FS.setDir, Path.name, hl, hr, hc, hsrc, Dir.read_erase,
      Dir.erase_of_read_none, FS.readFile.eq_1 _ (Path.asset _)]

theorem backupFile_some (fs : FS) (file : String) (A B : Dir)
    (hA : fs.assets = some A) (hB : fs.backup = some B) :
    backupFile fs file = { fs with backup := some (backupDirStep A B file) } := by
  obtain ⟨assets, locked, backup, scratch⟩ := fs
  simp only at hA hB
  subst hA hB
  cases hr : A.read file <;> cases hb : B.read file <;>
    simp [backupFile, backupDirStep, FS.fileExists, FS.readFile, FS.dirOf, FS.copy,
      FS.denied, FS.setDir, Path.name, hr, hb]

theorem backupFile_noAssets (fs : FS) (file : String) (hA : fs.assets = none) :
    backupFile fs file = fs := by
  simp [backupFile, FS.fileExists, FS.readFile, FS.dirOf, hA]

theorem foldl_backupFile_some (l : List String) (fs : FS) (A B : Dir)
    (hA : fs.assets = some A) (hB : fs.backup = some B) :
    l.foldl backupFile fs = { fs with backup := some (l.foldl (backupDirStep A) B) } := by
  induction l generalizing fs B with
  | nil => obtain ⟨a, lk, b, s⟩ := fs; simp_all
  | cons f rest ih =>
    rw [List.foldl_cons, backupFile_some fs f A B hA hB,
      ih { fs with backup := some (backupDirStep A B f) } (backupDirStep A B f) hA rfl]
    rfl

theorem foldl_backupFile_noAssets (l : List String) (fs : FS) (hA : fs.assets = none) :
    l.foldl backupFile fs = fs := by
  induction l with
  | nil => rfl
  | cons f rest ih => rw [List.foldl_cons, backupFile_noAssets fs f hA, ih]

theorem read_foldl_backupDirStep (l : List String) (A B : Dir) (g : String) :
    (l.foldl (backupDirStep A) B).read g =
      if (B.read g).isSome then B.read g else if g ∈ l then A.read g else none := by
  induction l generalizing B with
  | nil => cases h : B.read g <;> simp [h]
  | cons f rest ih =>
    rw [List.foldl_cons, ih]
    by_cases hfg : f = g
    · subst hfg
      cases ha : A.read f <;> cases hb : B.read f <;>
        simp [backupDirStep, ha, hb, Dir.read]
    · have hgf : ¬ g = f := fun h => hfg h.symm
      cases ha : A.read f <;> cases hb : B.read f <;>
        simp [backupDirStep, ha, hb, Dir.read, hfg, hgf]

theorem foldl_overwriteAsset (srcOf : String → Path) (hs : ∀ f, (srcOf f).isAsset = false)
    (l : List String) (fs : FS) (n : Nat) (A : Dir) (hA : fs.assets = some A) :
    l.foldl (fun st f => overwriteAsset (srcOf f) st f) (fs, n) =
      (let r := l.foldl (fun st f => overwriteDir fs.locked (fs.readFile (srcOf f)) st f) (A, n)
       ({ fs with assets := some r.1 }, r.2)) := by
  induction l generalizing fs n A with
  | nil => obtain ⟨a, lk, b, s⟩ := fs; simp_all
  | cons f rest ih =>
    rw [List.foldl_cons]
    show List.foldl _ (overwriteAsset (srcOf f) (fs, n) f) rest = _
    rw [overwriteAsset_some _ fs n f A (hs f) hA, ih _ _ _ rfl]
    simp [readFile_setAssets, hs]

theorem foldl_overwriteAsset_none (srcOf : String → Path)
    (l : List String) (fs : FS) (n : Nat) (hA : fs.assets = none) :
    l.foldl (fun st f => overwriteAsset (srcOf f) st f) (fs, n) = (fs, n) := by
  induction l with
  | nil => rfl
  | cons f rest ih =>
    rw [List.foldl_cons]
    show List.foldl _ (overwriteAsset (srcOf f) (fs, n) f) rest = _
    rw [overwriteAsset_none _ fs n f hA, ih]

theorem overwriteDir_locked (locked : List String) (src : Option String) (st : Dir × Nat)
    (file : String) (h : file ∈ locked) : overwriteDir locked src st file = st := by
  simp [overwriteDir, h]

theorem overwriteDir_some (locked : List String) (c : String) (st : Dir × Nat)
    (file : String) (h : file ∉ locked) :
    overwriteDir locked (some c) st file = ((file, c) :: st.1.erase file, st.2 + 1) := by
  simp [overwriteDir, h]

theorem count_foldl_overwriteDir (locked : List String) (content : String → Option String)
    (l : List String) (A : Dir) (n : Nat) (hc : ∀ f ∈ l, (content f).isSome = true) :
    (l.foldl (fun st f => overwriteDir locked (content f) st f) (A, n)).2 =
      n + (l.filter (fun f => decide (f ∉ locked))).length := by
  induction l generalizing A n with
  | nil => simp
  | cons f rest ih =>
    rw [List.foldl_cons]
    have hf := hc f (List.mem_cons_self _ _)
    have hrest : ∀ g ∈ rest, (content g).isSome = true :=
      fun g hg => hc g (List.mem_cons_of_mem _ hg)
    obtain ⟨c, hcf⟩ := Option.isSome_iff_exists.mp hf
    by_cases hl : f ∈ locked
    · show (List.foldl _ (overwriteDir locked (content f) (A, n) f) rest).2 = _
      rw [overwriteDir_locked _ _ _ _ hl, ih _ _ hrest]
      simp [hl]
    · show (List.foldl _ (overwriteDir locked (content f) (A, n) f) rest).2 = _
      rw [hcf, overwriteDir_some _ _ _ _ hl, ih _ _ hrest]
      simp [hl]
      omega

theorem read_foldl_overwriteDir (locked : List String) (content : String → Option String)
    (l : List String) (A : Dir) (n : Nat) (hc : ∀ f ∈ l, (content f).isSome = true)
    (g : String) :
    (l.foldl (fun st f => overwriteDir locked (content f) st f) (A, n)).1.read g =
      if g ∈ l ∧ g ∉ locked then content g else A.read g := by
  induction l generalizing A n with
  | nil => simp
  | cons f rest ih =>
    rw [List.foldl_cons]
    have hf := hc f (List.mem_cons_self _ _)
    have hrest : ∀ g ∈ rest, (content g).isSome = true :=
      fun g hg => hc g (List.mem_cons_of_mem _ hg)
    obtain ⟨c, hcf⟩ := Option.isSome_iff_exists.mp hf
    by_cases hl : f ∈ locked
    · show (List.foldl _ (overwriteDir locked (content f) (A, n) f) rest).1.read g = _
      rw [overwriteDir_locked _ _ _ _ hl, ih _ _ hrest]
      by_cases hgf : g = f
      · subst hgf; simp [hl]
      · simp [hgf]
    · show (List.foldl _ (overwriteDir locked (content f) (A, n) f) rest).1.read g = _
      rw [hcf, overwriteDir_some _ _ _ _ hl, ih _ _ hrest]
      by_cases hgf : g = f
      · subst hgf
        by_cases hm : g ∈ rest <;> simp [hm, hl, hcf, Dir.read]
      · have hfg : ¬ f = g := fun h => hgf h.symm
        simp [hgf, hfg, Dir.read, Dir.read_erase]

theorem staged_assets (fs : FS) (zip : Archive) (now : Nat) :
    (staged fs zip now).assets = fs.assets := by
  unfold staged FS.extract FS.mkpathScratch
  cases zip.contents <;> cases fs.scratchTree (.temp now) <;> rfl

theorem staged_locked (fs : FS) (zip : Archive) (now : Nat) :
    (staged fs zip now).locked = fs.locked := by
  unfold staged FS.extract FS.mkpathScratch
  cases zip.contents <;> cases fs.scratchTree (.temp now) <;> rfl

theorem staged_backup (fs : FS) (zip : Archive) (now : Nat) :
    (staged fs zip now).backup = fs.backup := by
  unfold staged FS.extract FS.mkpathScratch
  cases zip.contents <;> cases fs.scratchTree (.temp now) <;> rfl

theorem scratchTree_removeRecursively (fs : FS) (t : ScratchDir) :
    (fs.removeRecursively t).scratchTree t = none := by
  simp [FS.removeRecursively, FS.scratchTree, List.find?_eq_none]

theorem mem_entryList_read (d : Option Dir) (f : String) (h : f ∈ entryList d) :
    (d.bind (fun x => x.read f)).isSome = true := by
  cases d with
  | none => simp [entryList] at h
  | some x =>
    simp only [entryList, List.mem_filter] at h
    simpa using (Dir.mem_names_iff x f).mp h.1

theorem mem_entryList_filter (d : Option Dir) (f : String) (h : f ∈ entryList d) :
    iconNameFilter f = true := by
  cases d with
  | none => simp [entryList] at h
  | some x =>
    simp only [entryList, List.mem_filter] at h
    exact h.2

/-- The success path of `performManualInstall`, unfolded. -/
theorem performManualInstall_copyLoop (fs : FS) (zip : Archive) (now : Nat)
    (hfin : zip.waitForFinished 30000 = true) (hexit : zip.exitCode = 0)
    (hne : enumeratedIconFiles fs zip now ≠ []) :
    performManualInstall fs zip now =
      (let b := backupStep (staged fs zip now) (enumeratedIconFiles fs zip now)
       let r := (enumeratedIconFiles fs zip now).foldl (installFile (.temp now)) (b.1, 0)
       ⟨r.1.removeRecursively (.temp now),
        [.extractingPack] ++ b.2 ++ [.installingIconFiles, .installedFiles r.2],
        .success r.2⟩) := by
  have hne2 : (enumeratedIconFiles fs zip now).isEmpty = false := by
    cases h : enumeratedIconFiles fs zip now
    · exact absurd h hne
    · rfl
  unfold enumeratedIconFiles extractedIcons staged at hne2
  simp only [performManualInstall, hfin, hexit, enumeratedIconFiles, extractedIcons, staged]
  simp [hne2]

theorem readFile_scratchIcon (s fs : FS) (zip : Archive) (now : Nat) (f : String)
    (h : s.scratch = (staged fs zip now).scratch) :
    s.readFile (.scratchIcon (.temp now) f) = packContent fs zip now f := by
  simp [FS.readFile, FS.dirOf, FS.scratchTree, packContent, extractedIcons, Path.name, h]

theorem packContent_isSome (fs : FS) (zip : Archive) (now : Nat) (f : String)
    (h : f ∈ enumeratedIconFiles fs zip now) : (packContent fs zip now f).isSome = true :=
  mem_entryList_read _ f h

theorem foldl_installFile_some (fs : FS) (zip : Archive) (now : Nat) (s : FS) (A : Dir)
    (hsc : s.scratch = (staged fs zip now).scratch) (hl : s.locked = fs.locked)
    (hA : s.assets = some A) :
    (enumeratedIconFiles fs zip now).foldl (installFile (.temp now)) (s, 0) =
      ({ s with assets := some (copyLoopResult fs zip now A).1 },
        (copyLoopResult fs zip now A).2) := by
  have h := foldl_overwriteAsset (fun f => Path.scratchIcon (.temp now) f) (fun _ => rfl)
    (enumeratedIconFiles fs zip now) s 0 A hA
  have hfun : (fun st f => overwriteAsset (Path.scratchIcon (.temp now) f) st f)
      = installFile (.temp now) := by
    funext st f; rfl
  rw [hfun] at h
  rw [h]
  simp only [copyLoopResult, hl, readFile_scratchIcon s fs zip now _ hsc]

theorem foldl_installFile_none (t : ScratchDir) (l : List String) (s : FS)
    (hA : s.assets = none) :
    l.foldl (installFile t) (s, 0) = (s, 0) := by
  have h := foldl_overwriteAsset_none (fun f => Path.scratchIcon t f) l s 0 hA
  have hfun : (fun st f => overwriteAsset (Path.scratchIcon t f) st f) = installFile t := by
    funext st f; rfl
  rw [hfun] at h
  exact h

theorem removeWhileExtracting_frame (fs : FS) (a : Archive) (t : ScratchDir) :
    (fs.removeWhileExtracting a t).assets = fs.assets ∧
    (fs.removeWhileExtracting a t).locked = fs.locked ∧
    (fs.removeWhileExtracting a t).backup = fs.backup := by
  unfold FS.removeWhileExtracting
  cases a.leftBehind <;> simp [FS.removeRecursively]

theorem mkpathScratch_frame (fs : FS) (t : ScratchDir) :
    (fs.mkpathScratch t).assets = fs.assets ∧
    (fs.mkpathScratch t).locked = fs.locked ∧
    (fs.mkpathScratch t).backup = fs.backup := by
  unfold FS.mkpathScratch
  cases fs.scratchTree t <;> simp

/-- The exits of `performManualInstall` before the backup step touch neither
the assets directory nor the backup directory. -/
theorem performManualInstall_abort (fs : FS) (zip : Archive) (now : Nat)
    (h : ¬ (zip.waitForFinished 30000 = true ∧ zip.exitCode = 0 ∧
        enumeratedIconFiles fs zip now ≠ [])) :
    (performManualInstall fs zip now).fs.assets = fs.assets ∧
    (performManualInstall fs zip now).fs.locked = fs.locked ∧
    (performManualInstall fs zip now).fs.backup = fs.backup ∧
    ∀ n, (performManualInstall fs zip now).exit ≠ .success n := by
  by_cases hfin : zip.waitForFinished 30000 = true
  · by_cases hexit : zip.exitCode = 0
    · have hne : enumeratedIconFiles fs zip now = [] := by
        by_contra hc; exact h ⟨hfin, hexit, hc⟩
      unfold enumeratedIconFiles extractedIcons staged at hne
      simp [performManualInstall, hfin, hexit, hne, FS.removeRecursively]
      exact ⟨staged_assets fs zip now, staged_locked fs zip now, staged_backup fs zip now⟩
    · simp [performManualInstall, hfin, hexit, FS.removeRecursively]
      exact ⟨staged_assets fs zip now, staged_locked fs zip now, staged_backup fs zip now⟩
  · simp [performManualInstall, hfin, removeWhileExtracting_frame, mkpathScratch_frame]

/-- The exits of `performManualInstall` taken after the extraction process
has ended, short of the copy loop, leave no scratch directory. -/
theorem performManualInstall_abort_scratch (fs : FS) (zip : Archive) (now : Nat)
    (hfin : zip.waitForFinished 30000 = true)
    (h : ¬ (zip.exitCode = 0 ∧ enumeratedIconFiles fs zip now ≠ [])) :
    (performManualInstall fs zip now).fs.scratchTree (.temp now) = none := by
  by_cases hexit : zip.exitCode = 0
  · have hne : enumeratedIconFiles fs zip now = [] := by
      by_contra hc; exact h ⟨hexit, hc⟩
    unfold enumeratedIconFiles extractedIcons staged at hne
    simp [performManualInstall, hfin, hexit, hne, scratchTree_removeRecursively]
  · simp [performManualInstall, hfin, hexit, scratchTree_removeRecursively]

theorem backupStep_fst (s : FS) (l : List String) :
    (backupStep s l).1 = { s with backup := backupAfter s l } := by
  obtain ⟨a, lk, b, sc⟩ := s
  cases b with
  | some B => simp [backupStep, FS.backupExists, backupAfter]
  | none =>
    cases a with
    | none =>
      simp [backupStep, FS.backupExists, backupAfter, FS.mkpathBackup,
        foldl_backupFile_noAssets]
    | some A =>
      simp only [backupStep, FS.backupExists, backupAfter, FS.mkpathBackup, Option.isSome_none,
        Bool.not_false, if_true]
      rw [foldl_backupFile_some l _ A [] rfl rfl]

/-- Closed form of the file system and of the exit of a `performManualInstall`
that reaches the copy loop. -/
theorem performManualInstall_success (fs : FS) (zip : Archive) (now : Nat)
    (hfin : zip.waitForFinished 30000 = true) (hexit : zip.exitCode = 0)
    (hne : enumeratedIconFiles fs zip now ≠ []) :
    (performManualInstall fs zip now).fs =
      ⟨fs.assets.map (fun A => (copyLoopResult fs zip now A).1), fs.locked,
        backupAfter fs (enumeratedIconFiles fs zip now),
        ((staged fs zip now).removeRecursively (.temp now)).scratch⟩ ∧
    (performManualInstall fs zip now).exit =
      .success ((fs.assets.map (fun A => (copyLoopResult fs zip now A).2)).getD 0) := by
  rw [performManualInstall_copyLoop fs zip now hfin hexit hne]
  simp only [backupStep_fst]
  have hba : backupAfter (staged fs zip now) (enumeratedIconFiles fs zip now)
      = backupAfter fs (enumeratedIconFiles fs zip now) := by
    simp [backupAfter, staged_assets, staged_backup]
  cases hA : fs.assets with
  | none =>
    rw [foldl_installFile_none (.temp now) (enumeratedIconFiles fs zip now)
      { staged fs zip now with
        backup := backupAfter (staged fs zip now) (enumeratedIconFiles fs zip now) }
      (by simp [staged_assets, hA])]
    simp [FS.removeRecursively, staged_assets, staged_locked, hA, hba]
  | some A =>
    rw [foldl_installFile_some fs zip now
      { staged fs zip now with
        backup := backupAfter (staged fs zip now) (enumeratedIconFiles fs zip now) }
      A rfl (by simp [staged_locked]) (by simp [staged_assets, hA])]
    simp [FS.removeRecursively, staged_locked, hba]

theorem restoreBackup_some (fs : FS) (A B : Dir) (hA : fs.assets = some A)
    (hB : fs.backup = some B) :
    restoreBackup fs true true =
      ⟨{ fs with assets := some (restoreLoopResult fs.locked A B).1 },
        [.restoringBackup, .restoredFiles (restoreLoopResult fs.locked A B).2],
        .restored (restoreLoopResult fs.locked A B).2⟩ := by
  have h := foldl_overwriteAsset (fun f => Path.backup f) (fun _ => rfl)
    (entryList fs.backup) fs 0 A hA
  have hfun : (fun st f => overwriteAsset (Path.backup f) st f) = restoreFile := by
    funext st f; rfl
  rw [hfun, hB] at h
  have hread : ∀ f, fs.readFile (.backup f) = B.read f := by
    intro f; simp [FS.readFile, FS.dirOf, hB, Path.name]
  simp only [restoreBackup, FS.backupExists, hB, Option.isSome_some, Bool.not_true,
    Bool.false_eq_true, if_false, h, hread, restoreLoopResult]

theorem restoreBackup_noAssets (fs : FS) (B : Dir) (hA : fs.assets = none)
    (hB : fs.backup = some B) :
    restoreBackup fs true true = ⟨fs, [.restoringBackup, .restoredFiles 0], .restored 0⟩ := by
  have h := foldl_overwriteAsset_none (fun f => Path.backup f) (entryList fs.backup) fs 0 hA
  have hfun : (fun st f => overwriteAsset (Path.backup f) st f) = restoreFile := by
    funext st f; rfl
  rw [hfun, hB] at h
  simp only [restoreBackup, FS.backupExists, hB, Option.isSome_some, Bool.not_true,
    Bool.false_eq_true, if_false, h]

theorem read_restoreLoopResult (locked : List String) (A B : Dir) (g : String) :
    (restoreLoopResult locked A B).1.read g =
      if (B.read g).isSome = true ∧ iconNameFilter g = true ∧ g ∉ locked then B.read g
      else A.read g := by
  unfold restoreLoopResult
  rw [read_foldl_overwriteDir locked (fun f => B.read f) _ A 0]
  · simp only [entryList, List.mem_filter, Dir.mem_names_iff, and_assoc]
  · intro f hf
    simp only [entryList, List.mem_filter, Dir.mem_names_iff] at hf
    exact hf.1

theorem read_copyLoopResult (fs : FS) (zip : Archive) (now : Nat) (A : Dir) (g : String) :
    (copyLoopResult fs zip now A).1.read g =
      if g ∈ enumeratedIconFiles fs zip now ∧ g ∉ fs.locked then packContent fs zip now g
      else A.read g := by
  unfold copyLoopResult
  rw [read_foldl_overwriteDir fs.locked (packContent fs zip now) _ A 0
    (fun f hf => packContent_isSome fs zip now f hf)]

theorem count_copyLoopResult (fs : FS) (zip : Archive) (now : Nat) (A : Dir) :
    (copyLoopResult fs zip now A).2 =
      ((enumeratedIconFiles fs zip now).filter (fun f => decide (f ∉ fs.locked))).length := by
  unfold copyLoopResult
  rw [count_foldl_overwriteDir fs.locked (packContent fs zip now) _ A 0
    (fun f hf => packContent_isSome fs zip now f hf)]
  simp

theorem reachesCopyLoop_iff (fs : FS) (zip : Archive) (now : Nat) :
    reachesCopyLoop fs zip now = true ↔
      (zip.waitForFinished 30000 = true ∧ zip.exitCode = 0 ∧
        enumeratedIconFiles fs zip now ≠ []) := by
  cases h : enumeratedIconFiles fs zip now <;> simp [reachesCopyLoop, h, and_assoc]

theorem backupStep_snd (s : FS) (l : List String) :
    (backupStep s l).2 =
      if s.backupExists then [.backupAlreadyExists] else [.creatingBackup, .backupCreated] := by
  cases h : s.backupExists <;> simp [backupStep, h]

theorem performManualInstall_log_count (fs : FS) (zip : Archive) (now : Nat) :
    (performManualInstall fs zip now).log.count .creatingBackup =
      if reachesCopyLoop fs zip now = true ∧ fs.backupExists = false then 1 else 0 := by
  by_cases hrun : reachesCopyLoop fs zip now = true
  · obtain ⟨hfin, hexit, hne⟩ := (reachesCopyLoop_iff fs zip now).mp hrun
    rw [performManualInstall_copyLoop fs zip now hfin hexit hne]
    have hbe : (staged fs zip now).backupExists = fs.backupExists := by
      simp [FS.backupExists, staged_backup]
    simp only [backupStep_snd, hbe, hrun, true_and]
    cases fs.backupExists <;> simp [List.count_cons, List.count_nil]
  · have hrun2 := hrun
    rw [reachesCopyLoop_iff] at hrun2
    simp only [hrun, false_and, if_false]
    by_cases hfin : zip.waitForFinished 30000 = true
    · by_cases hexit : zip.exitCode = 0
      · have hne : enumeratedIconFiles fs zip now = [] := by
          by_contra hc; exact hrun2 ⟨hfin, hexit, hc⟩
        unfold enumeratedIconFiles extractedIcons staged at hne
        simp [performManualInstall, hfin, hexit, hne]
      · simp [performManualInstall, hfin, hexit]
    · simp [performManualInstall, hfin]

theorem performManualInstall_backup (fs : FS) (zip : Archive) (now : Nat) :
    (performManualInstall fs zip now).fs.backup =
      if reachesCopyLoop fs zip now = true then backupAfter fs (enumeratedIconFiles fs zip now)
      else fs.backup := by
  by_cases hrun : reachesCopyLoop fs zip now = true
  · obtain ⟨hfin, hexit, hne⟩ := (reachesCopyLoop_iff fs zip now).mp hrun
    rw [(performManualInstall_success fs zip now hfin hexit hne).1]
    simp [hrun]
  · have hrun2 := hrun
    rw [reachesCopyLoop_iff] at hrun2
    rw [(performManualInstall_abort fs zip now hrun2).2.2.1]
    simp [hrun]

theorem backupAfter_of_exists (fs : FS) (l : List String) (h : fs.backupExists = true) :
    backupAfter fs l = fs.backup := by
  cases hb : fs.backup <;> simp_all [FS.backupExists, backupAfter]

theorem backupAfter_isSome (fs : FS) (l : List String) : (backupAfter fs l).isSome = true := by
  cases hb : fs.backup <;> cases ha : fs.assets <;> simp [backupAfter, hb, ha]

theorem validatedRoot_of_contents (fs : FS) (zip : Archive) (now : Nat) (t : Tree)
    (h : zip.contents = some t) : validatedRoot fs zip now = some t := by
  simp [validatedRoot, FS.extract, h, FS.scratchTree]

theorem copiesAlone_eq (fs : FS) (zip : Archive) (now : Nat) (file : String)
    (h : file ∈ enumeratedIconFiles fs zip now) :
    copiesAlone fs zip now file = (fs.assets.isSome && decide (file ∉ fs.locked)) := by
  obtain ⟨c, hc⟩ := Option.isSome_iff_exists.mp (packContent_isSome fs zip now file h)
  unfold copiesAlone
  rw [installFile_eq]
  cases hA : fs.assets with
  | none =>
    rw [overwriteAsset_none (.scratchIcon (.temp now) file) (staged fs zip now) 0 file
      (by simp [staged_assets, hA])]
    simp
  | some A =>
    rw [overwriteAsset_some (.scratchIcon (.temp now) file) (staged fs zip now) 0 file A rfl
        (by simp [staged_assets, hA]),
      readFile_scratchIcon _ fs zip now file rfl, hc, staged_locked]
    by_cases hl : file ∈ fs.locked <;> simp [overwriteDir, hl]

theorem foldl_overwriteDir_locked (locked : List String) (content : String → Option String)
    (l : List String) (st : Dir × Nat) (h : ∀ f ∈ l, f ∈ locked) :
    l.foldl (fun st f => overwriteDir locked (content f) st f) st = st := by
  induction l with
  | nil => rfl
  | cons f rest ih =>
    rw [List.foldl_cons]
    show List.foldl _ (overwriteDir locked (content f) st f) rest = _
    rw [overwriteDir_locked _ _ _ _ (h f (List.mem_cons_self _ _))]
    exact ih (fun g hg => h g (List.mem_cons_of_mem _ hg))

/-! ## The claims -/

/-- C1, as stated, fails: with a backup directory left by an earlier install,
`performManualInstall` followed by a confirmed `restoreBackup` leaves `a.png`,
present before the install with content "orig-a", with the stale content
"older-a"; and `b.plist`, absent from that backup, keeps the pack's content. -/
theorem roundtrip_fails_with_stale_backup :
    staleBackupTarget.readFile (.asset "a.png") = some "orig-a" ∧
    (restoreBackup (performManualInstall staleBackupTarget demoPack 7).fs true true).fs.readFile
      (.asset "a.png") = some "older-a" ∧
    staleBackupTarget.readFile (.asset "b.plist") = some "orig-b" ∧
    (restoreBackup (performManualInstall staleBackupTarget demoPack 7).fs true true).fs.readFile
      (.asset "b.plist") = some "new-b" := by
  decide

/-- C1, amended: when no backup directory exists before the install, then for
every pack, `performManualInstall` followed by a confirmed `restoreBackup` on a
detected target leaves every asset file that was present before the install
with its pre-install content. -/
theorem install_restore_roundtrip (fs : FS) (zip : Archive) (now : Nat)
    (file content : String)
    (hb : fs.backupExists = false)
    (hfile : fs.readFile (.asset file) = some content) :
    (restoreBackup (performManualInstall fs zip now).fs true true).fs.readFile (.asset file)
      = some content := by
  have hbn : fs.backup = none := by
    cases h : fs.backup <;> simp_all [FS.backupExists]
  obtain ⟨A, hA⟩ : ∃ A, fs.assets = some A := by
    cases h : fs.assets with
    | none => simp [FS.readFile, FS.dirOf, h] at hfile
    | some A => exact ⟨A, rfl⟩
  have hAr : A.read file = some content := by
    simpa [FS.readFile, FS.dirOf, hA, Path.name] using hfile
  by_cases hrun : zip.waitForFinished 30000 = true ∧ zip.exitCode = 0 ∧
      enumeratedIconFiles fs zip now ≠ []
  · obtain ⟨hfin, hexit, hne⟩ := hrun
    have hfs := (performManualInstall_success fs zip now hfin hexit hne).1
    rw [hfs]
    simp only [hA, Option.map_some', backupAfter, hbn]
    rw [restoreBackup_some _ _ _ rfl rfl]
    simp only [FS.readFile, FS.dirOf, Path.name, Option.some_bind]
    rw [read_restoreLoopResult, read_copyLoopResult, read_foldl_backupDirStep]
    by_cases hmem : file ∈ enumeratedIconFiles fs zip now
    · have hflt := mem_entryList_filter _ _ hmem
      by_cases hl : file ∈ fs.locked
      · simp [hmem, hl, hAr, Dir.read]
      · simp [hmem, hl, hAr, Dir.read, hflt]
    · simp [hmem, hAr, Dir.read]
  · have hab := performManualInstall_abort fs zip now hrun
    have : (performManualInstall fs zip now).fs.backupExists = false := by
      simp [FS.backupExists, hab.2.2.1, hbn]
    simp only [restoreBackup, this, Bool.not_false, if_true]
    simpa [FS.readFile, FS.dirOf, hab.1, hA, Path.name] using hAr

/-- The round trip at a concrete target with a locked file. -/
theorem install_restore_roundtrip_witness :
    lockedTarget.backupExists = false ∧
    lockedTarget.readFile (.asset "a.png") = some "orig-a" ∧
    (performManualInstall lockedTarget demoPack 7).fs.readFile (.asset "a.png") = some "new-a" ∧
    (restoreBackup (performManualInstall lockedTarget demoPack 7).fs true true).fs.readFile
      (.asset "a.png") = some "orig-a" :=
  ⟨by decide, by decide, by decide,
    install_restore_roundtrip lockedTarget demoPack 7 "a.png" "orig-a" (by decide) (by decide)⟩

/-- C2: when the backup directory already exists, `performManualInstall`
leaves it exactly as it was and does not create a backup. Consequently two
successive installs create the backup at most once, and exactly once when
they start without a backup directory and the first one reaches the backup
step: the first creates it, the second neither creates it again nor changes
it. -/
theorem backup_step_idempotent (fs : FS) (zip : Archive) (now : Nat) :
    (fs.backupExists = true →
      (performManualInstall fs zip now).fs.backup = fs.backup ∧
      (performManualInstall fs zip now).log.count .creatingBackup = 0) ∧
    (∀ (zip2 : Archive) (now2 : Nat),
      (performManualInstall fs zip now).log.count .creatingBackup +
        (performManualInstall (performManualInstall fs zip now).fs zip2 now2).log.count
          .creatingBackup ≤ 1 ∧
      (fs.backupExists = false → reachesCopyLoop fs zip now = true →
        (performManualInstall fs zip now).log.count .creatingBackup = 1 ∧
        (performManualInstall (performManualInstall fs zip now).fs zip2 now2).log.count
          .creatingBackup = 0 ∧
        (performManualInstall (performManualInstall fs zip now).fs zip2 now2).fs.backup =
          (performManualInstall fs zip now).fs.backup)) := by
  have hA : ∀ (s : FS) (z : Archive) (n : Nat), s.backupExists = true →
      (performManualInstall s z n).fs.backup = s.backup ∧
      (performManualInstall s z n).log.count .creatingBackup = 0 := by
    intro s z n hs
    refine ⟨?_, ?_⟩
    · rw [performManualInstall_backup, backupAfter_of_exists s _ hs]
      simp
    · rw [performManualInstall_log_count]
      simp [hs]
  have hB : fs.backupExists = false → reachesCopyLoop fs zip now = true →
      (performManualInstall fs zip now).log.count .creatingBackup = 1 ∧
      (performManualInstall fs zip now).fs.backupExists = true := by
    intro hb hrun
    refine ⟨?_, ?_⟩
    · rw [performManualInstall_log_count]
      simp [hrun, hb]
    · unfold FS.backupExists
      rw [performManualInstall_backup]
      simp [hrun, backupAfter_isSome]
  refine ⟨hA fs zip now, fun zip2 now2 => ⟨?_, ?_⟩⟩
  · by_cases hc : reachesCopyLoop fs zip now = true ∧ fs.backupExists = false
    · have h1 := hB hc.2 hc.1
      rw [h1.1, (hA _ zip2 now2 h1.2).2]
    · have h0 : (performManualInstall fs zip now).log.count .creatingBackup = 0 := by
        rw [performManualInstall_log_count]
        simp [hc]
      rw [h0, performManualInstall_log_count]
      split <;> simp
  · intro hb hrun
    have h1 := hB hb hrun
    exact ⟨h1.1, (hA _ zip2 now2 h1.2).2, (hA _ zip2 now2 h1.2).1⟩

/-- Both parts of `backup_step_idempotent` at concrete targets: an install
over a stale backup leaves it as it was, and of two installs into a target
without backup only the first creates one. -/
theorem backup_step_idempotent_witness :
    (staleBackupTarget.backupExists = true ∧
      (performManualInstall staleBackupTarget demoPack 7).fs.backup = staleBackupTarget.backup ∧
      (performManualInstall staleBackupTarget demoPack 7).log.count .creatingBackup = 0) ∧
    (demoTarget.backupExists = false ∧ reachesCopyLoop demoTarget demoPack 7 = true ∧
      (performManualInstall demoTarget demoPack 7).log.count .creatingBackup = 1 ∧
      (performManualInstall (performManualInstall demoTarget demoPack 7).fs brokenPack 9).log.count
        .creatingBackup = 0 ∧
      (performManualInstall (performManualInstall demoTarget demoPack 7).fs brokenPack 9).fs.backup
        = (performManualInstall demoTarget demoPack 7).fs.backup) :=
  ⟨⟨by decide, (backup_step_idempotent staleBackupTarget demoPack 7).1 (by decide)⟩,
    by decide, by decide,
    ((backup_step_idempotent demoTarget demoPack 7).2 brokenPack 9).2 (by decide) (by decide)⟩

/-- C4, as stated, fails: with the target not detected and no backup
directory, `restoreBackup` takes the "No Backup" exit, not the
"GD Not Detected" one. -/
theorem undetected_without_backup_reports_noBackup :
    demoTarget.backupExists = false ∧
    (restoreBackup demoTarget false true).exit = .noBackup ∧
    (restoreBackup demoTarget false true).exit ≠ .gdNotDetected := by
  decide

/-- C4, amended: `restoreBackup` checks the backup directory first. When the
backup directory does not exist it takes the "No Backup" exit, whether or not
the target is detected; when the backup directory exists and the target is not
detected it takes the "GD Not Detected" exit. Both leave the file system
unchanged and log nothing. -/
theorem restoreBackup_preconditions (fs : FS) (gdDetected replyYes : Bool) :
    (fs.backupExists = false →
      restoreBackup fs gdDetected replyYes = ⟨fs, [], .noBackup⟩) ∧
    (fs.backupExists = true → gdDetected = false →
      restoreBackup fs gdDetected replyYes = ⟨fs, [], .gdNotDetected⟩) := by
  constructor
  · intro h
    simp [restoreBackup, h]
  · intro h hg
    simp [restoreBackup, h, hg]

/-- Both exits of `restoreBackup_preconditions` at concrete targets. -/
theorem restoreBackup_preconditions_witness :
    (demoTarget.backupExists = false ∧
      restoreBackup demoTarget true true = ⟨demoTarget, [], .noBackup⟩) ∧
    (staleBackupTarget.backupExists = true ∧
      restoreBackup staleBackupTarget false true = ⟨staleBackupTarget, [], .gdNotDetected⟩) :=
  ⟨⟨by decide, (restoreBackup_preconditions demoTarget true true).1 (by decide)⟩,
    by decide, (restoreBackup_preconditions staleBackupTarget false true).2 (by decide) rfl⟩

/-- C5: `validateZip` returns true exactly when the extraction finished within
10000 ms with exit code 0 and the extracted root holds `pack.json`, `pack.png`
and an `icons` directory; when the extraction succeeded and one of the three
is missing it logs the invalid-structure line and returns false. The root is
what the tool extracted whenever the tool extracted anything. -/
theorem validateZip_verdict (fs : FS) (zip : Archive) (now : Nat) :
    ((validateZip fs zip now).result = true ↔
      (zip.waitForFinished 10000 = true ∧ zip.exitCode = 0 ∧
        ∃ t : Tree, validatedRoot fs zip now = some t ∧
          t.packJson = true ∧ t.packPng = true ∧ t.icons.isSome = true)) ∧
    (zip.waitForFinished 10000 = true → zip.exitCode = 0 →
      hasPackLayout (validatedRoot fs zip now) = false →
      (validateZip fs zip now).result = false ∧
      (validateZip fs zip now).log = [.invalidPackStructure]) ∧
    (∀ t : Tree, zip.contents = some t → validatedRoot fs zip now = some t) := by
  refine ⟨?_, ?_, fun t ht => validatedRoot_of_contents fs zip now t ht⟩
  · by_cases hfin : zip.waitForFinished 10000 = true
    · by_cases hexit : zip.exitCode = 0
      · cases hroot : validatedRoot fs zip now with
        | none =>
          unfold validatedRoot at hroot
          simp [validateZip, hfin, hexit, hroot, validatedRoot]
        | some t =>
          obtain ⟨pj, pp, ic⟩ := t
          unfold validatedRoot at hroot
          cases pj <;> cases pp <;> cases ic <;>
            simp [validateZip, hfin, hexit, hroot, validatedRoot]
      · simp [validateZip, hfin, hexit]
    · simp [validateZip, hfin]
  · intro hfin hexit hlay
    cases hroot : validatedRoot fs zip now with
    | none =>
      unfold validatedRoot at hroot
      simp [validateZip, hfin, hexit, hroot]
    | some t =>
      obtain ⟨pj, pp, ic⟩ := t
      rw [hroot] at hlay
      unfold validatedRoot at hroot
      cases pj <;> cases pp <;> cases ic <;>
        simp_all [validateZip, hasPackLayout]

/-- The verdicts at the two concrete archives: the complete pack passes, the
archive without `pack.json` gets the invalid-structure verdict. -/
theorem validateZip_verdict_witness :
    (validateZip demoTarget demoPack 3).result = true ∧
    ((validateZip demoTarget brokenPack 3).result = false ∧
      (validateZip demoTarget brokenPack 3).log = [.invalidPackStructure]) :=
  ⟨(validateZip_verdict demoTarget demoPack 3).1.mpr
      ⟨by decide, by decide, ⟨true, true, some [("a.png", "new-a"), ("b.plist", "new-b")]⟩,
        by decide, by decide, by decide, by decide⟩,
    (validateZip_verdict demoTarget brokenPack 3).2.1 (by decide) (by decide) (by decide)⟩

/-- Once the extraction process has ended within the time limit, or when a
run that outlasts the limit leaves nothing behind, no scratch directory is
left: every exit of `validateZip` and of `performManualInstall` removes it. -/
theorem scratch_removed_after_ended_extraction (fs : FS) (zip : Archive) (now : Nat) :
    (zip.waitForFinished 10000 = true ∨ zip.leftBehind = none →
      (validateZip fs zip now).fs.scratchTree (.validate now) = none) ∧
    (zip.waitForFinished 30000 = true ∨ zip.leftBehind = none →
      (performManualInstall fs zip now).fs.scratchTree (.temp now) = none) := by
  constructor
  · intro h
    by_cases hfin : zip.waitForFinished 10000 = true
    · simp only [validateZip, hfin, Bool.not_true, Bool.false_eq_true, if_false]
      split
      · exact scratchTree_removeRecursively _ _
      · split <;> exact scratchTree_removeRecursively _ _
    · have hl : zip.leftBehind = none := h.resolve_left hfin
      simp [validateZip, hfin, FS.removeWhileExtracting, hl, scratchTree_removeRecursively]
  · intro h
    by_cases hfin : zip.waitForFinished 30000 = true
    · by_cases hrun : zip.exitCode = 0 ∧ enumeratedIconFiles fs zip now ≠ []
      · rw [(performManualInstall_success fs zip now hfin hrun.1 hrun.2).1]
        exact scratchTree_removeRecursively (staged fs zip now) (.temp now)
      · exact performManualInstall_abort_scratch fs zip now hfin hrun
    · have hl : zip.leftBehind = none := h.resolve_left hfin
      simp [performManualInstall, hfin, FS.removeWhileExtracting, hl,
        scratchTree_removeRecursively]

/-- C8 fails on the code. With an extraction that is still running when the
wait ends, `validateZip` and `performManualInstall` take their timeout exits
and call `removeRecursively` while the process is still writing; the process
is killed only when the function returns, and the scratch directory exists
afterwards with what the process left behind. -/
theorem scratch_survives_timeout :
    slowPack.waitForFinished 10000 = false ∧
    (validateZip demoTarget slowPack 3).result = false ∧
    (validateZip demoTarget slowPack 3).log = [.zipExtractionTimeout] ∧
    (validateZip demoTarget slowPack 3).fs.scratchTree (.validate 3)
      = some ⟨false, true, some [("a.png", "new-a")]⟩ ∧
    slowPack.waitForFinished 30000 = false ∧
    (performManualInstall demoTarget slowPack 7).exit = .extractionTimedOut ∧
    (performManualInstall demoTarget slowPack 7).fs.scratchTree (.temp 7)
      = some ⟨false, true, some [("a.png", "new-a")]⟩ := by
  decide

/-- C6: in an install that reaches the copy loop, the installed count is the
number of enumerated files whose copy succeeds (N), however many fail (M),
and no failure stops the loop: every enumerated file whose copy succeeds is
in the assets directory afterwards with the pack's content. -/
theorem install_counts_successful_copies (fs : FS) (zip : Archive) (now : Nat)
    (hrun : reachesCopyLoop fs zip now = true) :
    (performManualInstall fs zip now).exit =
      .success ((enumeratedIconFiles fs zip now).filter (copiesAlone fs zip now)).length ∧
    ∀ f ∈ enumeratedIconFiles fs zip now, copiesAlone fs zip now f = true →
      (performManualInstall fs zip now).fs.readFile (.asset f) = packContent fs zip now f ∧
      (packContent fs zip now f).isSome = true := by
  obtain ⟨hfin, hexit, hne⟩ := (reachesCopyLoop_iff fs zip now).mp hrun
  have hsucc := performManualInstall_success fs zip now hfin hexit hne
  have hfilter : (enumeratedIconFiles fs zip now).filter (copiesAlone fs zip now) =
      (enumeratedIconFiles fs zip now).filter
        (fun f => fs.assets.isSome && decide (f ∉ fs.locked)) :=
    List.filter_congr (fun f hf => copiesAlone_eq fs zip now f hf)
  constructor
  · rw [hsucc.2, hfilter]
    cases hA : fs.assets with
    | none => simp
    | some A => simp [count_copyLoopResult]
  · intro f hf hcopy
    rw [copiesAlone_eq fs zip now f hf] at hcopy
    refine ⟨?_, packContent_isSome fs zip now f hf⟩
    rw [hsucc.1]
    cases hA : fs.assets with
    | none => simp [hA] at hcopy
    | some A =>
      have hl : f ∉ fs.locked := by simpa [hA] using hcopy
      simp [FS.readFile, FS.dirOf, Path.name, read_copyLoopResult, hf, hl]

/-- Best-effort counting at the target with `b.plist` locked: of the two pack
files one is copied, the failure on `b.plist` does not stop the loop. -/
theorem install_counts_successful_copies_witness :
    reachesCopyLoop lockedTarget demoPack 7 = true ∧
    (enumeratedIconFiles lockedTarget demoPack 7).filter (copiesAlone lockedTarget demoPack 7)
      = ["a.png"] ∧
    (performManualInstall lockedTarget demoPack 7).exit = .success 1 ∧
    (performManualInstall lockedTarget demoPack 7).fs.readFile (.asset "a.png") = some "new-a" ∧
    (performManualInstall lockedTarget demoPack 7).fs.readFile (.asset "b.plist")
      = some "orig-b" ∧
    ((performManualInstall lockedTarget demoPack 7).exit =
      .success ((enumeratedIconFiles lockedTarget demoPack 7).filter
        (copiesAlone lockedTarget demoPack 7)).length ∧
    ∀ f ∈ enumeratedIconFiles lockedTarget demoPack 7,
      copiesAlone lockedTarget demoPack 7 f = true →
      (performManualInstall lockedTarget demoPack 7).fs.readFile (.asset f)
        = packContent lockedTarget demoPack 7 f ∧
      (packContent lockedTarget demoPack 7 f).isSome = true) :=
  ⟨by decide, by decide, by decide, by decide, by decide,
    install_counts_successful_copies lockedTarget demoPack 7 (by decide)⟩

/-- C7, as stated, fails: with no assets directory the install does not
abort. It creates the backup directory, which did not exist, and takes the
"Success!" exit with an installed count of 0. -/
theorem install_without_assets_dir_reports_success :
    noAssetsTarget.assets = none ∧ noAssetsTarget.backup = none ∧
    (performManualInstall noAssetsTarget demoPack 7).exit = .success 0 ∧
    (performManualInstall noAssetsTarget demoPack 7).fs.backup = some [] := by
  decide

/-- C7, amended: the source has no check of the assets directory. When that
directory does not exist, or none of the pack's files can be written into it,
no asset file is removed or written; but an install that reaches the copy
loop is not aborted: it leaves a backup directory behind, created if it was
absent, and takes the "Success!" exit with an installed count of 0. -/
theorem install_into_unwritable_assets (fs : FS) (zip : Archive) (now : Nat)
    (hw : fs.assets = none ∨ ∀ f ∈ enumeratedIconFiles fs zip now, f ∈ fs.locked) :
    (performManualInstall fs zip now).fs.assets = fs.assets ∧
    (reachesCopyLoop fs zip now = true →
      (performManualInstall fs zip now).exit = .success 0 ∧
      (performManualInstall fs zip now).fs.backupExists = true) := by
  by_cases hrun : reachesCopyLoop fs zip now = true
  · obtain ⟨hfin, hexit, hne⟩ := (reachesCopyLoop_iff fs zip now).mp hrun
    have hsucc := performManualInstall_success fs zip now hfin hexit hne
    have hloop : ∀ A, fs.assets = some A → copyLoopResult fs zip now A = (A, 0) := by
      intro A hA
      rcases hw with h | h
      · rw [hA] at h; cases h
      · exact foldl_overwriteDir_locked _ _ _ _ h
    refine ⟨?_, fun _ => ⟨?_, ?_⟩⟩
    · rw [hsucc.1]
      cases hA : fs.assets with
      | none => rfl
      | some A => simp [hloop A hA]
    · rw [hsucc.2]
      cases hA : fs.assets with
      | none => rfl
      | some A => simp [hloop A hA]
    · rw [hsucc.1]
      exact backupAfter_isSome fs _
  · refine ⟨?_, fun h => absurd h hrun⟩
    rw [reachesCopyLoop_iff] at hrun
    exact (performManualInstall_abort fs zip now hrun).1

/-- The amended C7 at the target without assets directory. -/
theorem install_into_unwritable_assets_witness :
    noAssetsTarget.assets = none ∧ reachesCopyLoop noAssetsTarget demoPack 7 = true ∧
    (performManualInstall noAssetsTarget demoPack 7).fs.assets = noAssetsTarget.assets ∧
    (performManualInstall noAssetsTarget demoPack 7).exit = .success 0 ∧
    (performManualInstall noAssetsTarget demoPack 7).fs.backupExists = true :=
  ⟨by decide, by decide,
    (install_into_unwritable_assets noAssetsTarget demoPack 7 (Or.inl rfl)).1,
    (install_into_unwritable_assets noAssetsTarget demoPack 7 (Or.inl rfl)).2 (by decide)⟩

/-- C9, as stated, fails: the backup directory holds `notes.txt`, the restore
runs to its "Restored" exit, and the assets directory holds no `notes.txt`
afterwards. -/
theorem restore_skips_other_entries :
    staleBackupTarget.readFile (.backup "notes.txt") = some "n" ∧
    (restoreBackup staleBackupTarget true true).exit = .restored 1 ∧
    (restoreBackup staleBackupTarget true true).fs.readFile (.asset "notes.txt") = none := by
  decide

/-- C9, amended: when the backup directory exists, the target is detected and
the user confirms, `restoreBackup` copies every file of the backup directory
whose name matches `*.png` or `*.plist` (the entries its listing returns)
into the assets directory, replacing the file of that name: afterwards the
assets directory holds the backup's content under that name, given the copy
succeeds (the assets directory exists and the name is not locked). Entries
with other names are not copied: whatever the assets directory held under
such a name, or its absence, is as before. The backup directory is left as
it was. -/
theorem restore_copies_icon_entries (fs : FS) :
    (∀ file content : String,
      fs.readFile (.backup file) = some content → iconNameFilter file = true →
      fs.assets.isSome = true → file ∉ fs.locked →
      (restoreBackup fs true true).fs.readFile (.asset file) = some content) ∧
    (∀ (gdDetected replyYes : Bool) (file : String), iconNameFilter file = false →
      (restoreBackup fs gdDetected replyYes).fs.readFile (.asset file)
        = fs.readFile (.asset file)) ∧
    (∀ gdDetected replyYes : Bool,
      (restoreBackup fs gdDetected replyYes).fs.backup = fs.backup) := by
  have hcases : ∀ gd reply : Bool, (restoreBackup fs gd reply).fs = fs ∨
      (gd = true ∧ reply = true ∧ ∃ B, fs.backup = some B) := by
    intro gd reply
    cases hb : fs.backup with
    | none => left; simp [restoreBackup, FS.backupExists, hb]
    | some B =>
      cases gd
      · left; simp [restoreBackup, FS.backupExists, hb]
      · cases reply
        · left; simp [restoreBackup, FS.backupExists, hb]
        · right; exact ⟨rfl, rfl, B, rfl⟩
  refine ⟨?_, ?_, ?_⟩
  · intro file content hfile hname hdir hfree
    obtain ⟨B, hB⟩ : ∃ B, fs.backup = some B := by
      cases h : fs.backup with
      | none => simp [FS.readFile, FS.dirOf, h] at hfile
      | some B => exact ⟨B, rfl⟩
    obtain ⟨A, hA⟩ := Option.isSome_iff_exists.mp hdir
    have hBr : B.read file = some content := by
      simpa [FS.readFile, FS.dirOf, hB, Path.name] using hfile
    rw [restoreBackup_some fs A B hA hB]
    simp [FS.readFile, FS.dirOf, Path.name, read_restoreLoopResult, hBr, hname, hfree]
  · intro gd reply file hname
    rcases hcases gd reply with h | ⟨hg, hr, B, hB⟩
    · rw [h]
    · subst hg hr
      cases hA : fs.assets with
      | none => rw [restoreBackup_noAssets fs B hA hB]
      | some A =>
        rw [restoreBackup_some fs A B hA hB]
        simp [FS.readFile, FS.dirOf, Path.name, read_restoreLoopResult, hname, hA]
  · intro gd reply
    rcases hcases gd reply with h | ⟨hg, hr, B, hB⟩
    · rw [h]
    · subst hg hr
      cases hA : fs.assets with
      | none => rw [restoreBackup_noAssets fs B hA hB]
      | some A => rw [restoreBackup_some fs A B hA hB]

/-- The amended C9 at the stale backup: `a.png` of the backup replaces the
current `a.png`, `notes.txt` is not copied, the backup stays. -/
theorem restore_copies_icon_entries_witness :
    staleBackupTarget.readFile (.asset "a.png") = some "orig-a" ∧
    (restoreBackup staleBackupTarget true true).fs.readFile (.asset "a.png") = some "older-a" ∧
    staleBackupTarget.readFile (.backup "notes.txt") = some "n" ∧
    (restoreBackup staleBackupTarget true true).fs.readFile (.asset "notes.txt")
      = staleBackupTarget.readFile (.asset "notes.txt") ∧
    (restoreBackup staleBackupTarget true true).fs.backup = staleBackupTarget.backup :=
  ⟨by decide,
    (restore_copies_icon_entries staleBackupTarget).1 "a.png" "older-a" (by decide) (by decide)
      (by decide) (by decide),
    by decide,
    (restore_copies_icon_entries staleBackupTarget).2.1 true true "notes.txt" (by decide),
    (restore_copies_icon_entries staleBackupTarget).2.2 true true⟩

/-- C10 fails on the code. Selecting a file that `validateZip` rejects still
stores it in `zipPath`; the next detection calls `updateUI`, which only looks
at whether `zipPath` is empty, and enables the install button for the rejected
pack; clicking it installs the pack's file. Selecting the rejected file after
a valid one and a detection ends in the same window: install stays enabled. -/
theorem install_enabled_for_rejected_pack :
    (validateZip demoTarget brokenPack 1).result = false ∧
    (Session.run "/games/gd" demoTarget
      [.selectZip "bad.zip" brokenPack 1]).win.installBtn = false ∧
    (Session.run "/games/gd" demoTarget
      [.selectZip "bad.zip" brokenPack 1, .detect true false]).win.installBtn = true ∧
    (Session.run "/games/gd" demoTarget
      [.selectZip "bad.zip" brokenPack 1, .detect true false]).win.zipPath = "bad.zip" ∧
    (Session.run "/games/gd" demoTarget
      [.selectZip "bad.zip" brokenPack 1, .detect true false]).zipPassed = false ∧
    (Session.run "/games/gd" demoTarget
      [.selectZip "bad.zip" brokenPack 1, .detect true false,
        .install brokenPack 2]).win.fs.readFile (.asset "a.png") = some "bad-a" ∧
    (Session.run "/games/gd" demoTarget
      [.selectZip "good.zip" demoPack 1, .detect true false,
        .selectZip "bad.zip" brokenPack 3]) =
      ⟨(Session.run "/games/gd" demoTarget
        [.selectZip "bad.zip" brokenPack 1, .detect true false]).win, false⟩ := by
  decide

theorem checkForGD_eq (w : Window) (output : String) (lookup : Option String)
    (geodeAvail : Bool) :
    w.checkForGD output lookup geodeAvail =
      if processFound output then
        Window.determineGDPath { w with timerActive := false } lookup geodeAvail
      else w := rfl

/-- C11 fails on the code. With the process absent, the task listing prints
the line "INFO: No tasks are running which match the specified criteria.",
which does not contain "GeometryDash.exe"; the test `!output.isEmpty()` makes
`checkForGD` take it for the process all the same: it stops the running timer
and calls `determineGDPath`, which finds no path. The target stays undetected,
the detect button stays disabled, and a later tick, with the process running,
no longer reaches `checkForGD`. -/
theorem info_line_stops_polling :
    pollingWindow.timerActive = true ∧
    containsProcessName "INFO: No tasks are running which match the specified criteria."
      = false ∧
    processFound "INFO: No tasks are running which match the specified criteria." = true ∧
    (pollingWindow.step (.timerTick
      "INFO: No tasks are running which match the specified criteria." none false)).timerActive
      = false ∧
    (pollingWindow.step (.timerTick
      "INFO: No tasks are running which match the specified criteria." none false)).gdDetected
      = false ∧
    (pollingWindow.step (.timerTick
      "INFO: No tasks are running which match the specified criteria." none false)).detectGDBtn
      = false ∧
    ((pollingWindow.step (.timerTick
      "INFO: No tasks are running which match the specified criteria." none false)).step
        (.timerTick "GeometryDash.exe" (some "/games/gd") false)).gdDetected = false := by
  decide

/-- When the process-listing command prints nothing, `checkForGD` reports no
result: its condition is false, so it neither stops the polling timer nor
calls `determineGDPath`; the window is left exactly as it was and a running
timer keeps running. -/
theorem empty_output_keeps_polling (w : Window) (lookup : Option String)
    (geodeAvail : Bool) :
    processFound "" = false ∧
    w.checkForGD "" lookup geodeAvail = w ∧
    w.step (.timerTick "" lookup geodeAvail) = w ∧
    (w.timerActive = true →
      (w.step (.timerTick "" lookup geodeAvail)).timerActive = true) := by
  have hp : processFound "" = false := by decide
  have hc : w.checkForGD "" lookup geodeAvail = w := by
    rw [checkForGD_eq, hp]
    rfl
  have hs : w.step (.timerTick "" lookup geodeAvail) = w := by
    show (if w.timerActive then w.checkForGD "" lookup geodeAvail else w) = w
    rw [hc]
    split <;> rfl
  exact ⟨hp, hc, hs, fun h => by rw [hs]; exact h⟩

/-- A tick with empty output at the polling window leaves the timer running
and the target undetected. -/
theorem empty_output_keeps_polling_witness :
    pollingWindow.timerActive = true ∧
    (pollingWindow.step (.timerTick "" (some "/games/gd") false)).timerActive = true ∧
    (pollingWindow.step (.timerTick "" (some "/games/gd") false)).gdDetected = false :=
  ⟨by decide,
    (empty_output_keeps_polling pollingWindow (some "/games/gd") false).2.2.2 (by decide),
    by decide⟩

end GDIconMaker
